import Mathlib

/-!
Verification development for the Intel ARK scraper (`scrape_intel_ark.py`).

Text is modelled as `List Char` (Python `str`), the SQLite tables as lists of
row structures, and the network-bound parts (Playwright page fetches and DOM
queries) as explicit inputs: a page is the data the DOM queries of the source
would return, and a fallible fetch is an oracle returning success or an
exception detail.
-/

namespace IntelArk

/-- Python strings, modelled as lists of characters. -/
abbrev Str := List Char

/-- Convenience: a Lean string literal as a `Str`. -/
def str (s : String) : Str := s.data

/-! ### Text normalization (`normalize_text`, scrape_intel_ark.py lines 70-71)

`normalize_text(value)` is `" ".join(value.replace("\xa0", " ").split()).strip()`.
`str.split()` with no arguments splits on Python whitespace and drops empty
fields; `str.strip()` strips Python whitespace from both ends. -/

/-- The non-breaking space character replaced by `value.replace("\xa0", " ")`. -/
def nbspChar : Char := ' '

/-- The set of characters Python's `str.split()` / `str.strip()` treat as
whitespace (`str.isspace`). -/
def pyWhitespace : List Char :=
  ['\t', '\n', '\x0b', '\x0c', '\r', '\x1c', '\x1d', '\x1e', '\x1f', ' ',
   '\u0085', ' ', ' ', ' ', ' ', ' ', ' ',
   ' ', ' ', ' ', ' ', ' ', ' ', ' ',
   ' ', ' ', ' ', ' ', '　']

/-- Python's whitespace test for a single character. -/
def pyIsSpace (c : Char) : Bool := pyWhitespace.contains c

/-- `value.replace("\xa0", " ")`. -/
def replaceNbsp (s : Str) : Str := s.map (fun c => if c = nbspChar then ' ' else c)

/-- Helper for `str.split()`: accumulates the current word (reversed) and cuts
at whitespace, dropping empty fields. -/
def splitAux : Str → Str → List Str
  | [], acc => if acc = [] then [] else [acc.reverse]
  | c :: rest, acc =>
    if pyIsSpace c then
      if acc = [] then splitAux rest [] else acc.reverse :: splitAux rest []
    else splitAux rest (c :: acc)

/-- Python `value.split()` (no separator: split on whitespace runs, drop empties). -/
def pySplit (s : Str) : List Str := splitAux s []

/-- Python `" ".join(words)`. -/
def joinWords : List Str → Str
  | [] => []
  | [w] => w
  | w :: ws => w ++ ' ' :: joinWords ws

/-- Python `s.strip()`: drop leading and trailing whitespace. -/
def pyStrip (s : Str) : Str :=
  ((s.dropWhile (fun c => pyIsSpace c)).reverse.dropWhile (fun c => pyIsSpace c)).reverse

/-- `normalize_text` (scrape_intel_ark.py line 70):
`" ".join(value.replace("\xa0", " ").split()).strip()`. -/
def normalize_text (value : Str) : Str :=
  pyStrip (joinWords (pySplit (replaceNbsp value)))

/-! ### Lexicographic order on `Str`

SQLite compares TEXT values by memcmp on their UTF-8 bytes, which coincides
with codepoint-lexicographic order; `SELECT ... ORDER BY sku` sorts by it. -/

/-- Codepoint-lexicographic `≤` on strings (SQLite TEXT collation). -/
def lexLe : Str → Str → Bool
  | [], _ => true
  | _ :: _, [] => false
  | a :: as, b :: bs =>
    if a.toNat < b.toNat then true
    else if b.toNat < a.toNat then false
    else lexLe as bs

/-! ### State Store (`ensure_db`, scrape_intel_ark.py lines 78-111)

Three tables: `discovered_skus` (PRIMARY KEY sku), `scraped_skus`
(PRIMARY KEY sku), `discovered_series` (PRIMARY KEY url), each modelled as a
list of rows in insertion order. -/

/-- A row of the `discovered_skus` table. -/
structure SkuRow where
  sku : Str
  category : Str
  family : Str
  spec_url : Str
  product_name : Option Str
deriving DecidableEq

/-- A row of the `scraped_skus` table. -/
structure OutcomeRow where
  sku : Str
  scraped_at : Str
  status : Str
  last_error : Option Str
deriving DecidableEq

/-- A row of the `discovered_series` table. -/
structure SeriesRow where
  url : Str
  category : Str
  family : Str
deriving DecidableEq

/-- `SeriesLink` (scrape_intel_ark.py lines 50-54). -/
structure SeriesLink where
  category : Str
  family : Str
  url : Str
deriving DecidableEq

/-- `SkuLink` (scrape_intel_ark.py lines 57-63). -/
structure SkuLink where
  sku : Str
  product_name : Str
  category : Str
  family : Str
  spec_url : Str
deriving DecidableEq

/-- `load_done_skus` (lines 114-116): skus of `scraped_skus` rows with
`status = 'ok'`, as a list used for membership tests. -/
def load_done_skus (scraped : List OutcomeRow) : List Str :=
  (scraped.filter (fun r => r.status = str "ok")).map (fun r => r.sku)

/-- `load_failed_skus` (lines 119-121): skus of `scraped_skus` rows with
`status = 'error'`. -/
def load_failed_skus (scraped : List OutcomeRow) : List Str :=
  (scraped.filter (fun r => r.status = str "error")).map (fun r => r.sku)

/-- One `INSERT OR IGNORE` into `discovered_series`: inserts unless a row with
the same primary key `url` exists. -/
def insert_series (table : List SeriesRow) (s : SeriesLink) : List SeriesRow :=
  if table.any (fun row => row.url = s.url) then table
  else table ++ [⟨s.url, s.category, s.family⟩]

/-- `store_series` (lines 124-129): `executemany` of `INSERT OR IGNORE`. -/
def store_series (table : List SeriesRow) (series : List SeriesLink) : List SeriesRow :=
  series.foldl insert_series table

/-- One `INSERT OR IGNORE` into `discovered_skus`: inserts unless a row with
the same primary key `sku` exists (first-seen mapping wins). -/
def insert_sku (table : List SkuRow) (s : SkuLink) : List SkuRow :=
  if table.any (fun row => row.sku = s.sku) then table
  else table ++ [⟨s.sku, s.category, s.family, s.spec_url, some s.product_name⟩]

/-- `store_skus` (lines 132-141): `executemany` of `INSERT OR IGNORE`. -/
def store_skus (table : List SkuRow) (skus : List SkuLink) : List SkuRow :=
  skus.foldl insert_sku table

/-- `mark_sku` (lines 144-152): `INSERT OR REPLACE INTO scraped_skus` — the
conflicting row (if any) is deleted and the new row inserted, with the current
timestamp supplied by the caller's clock. -/
def mark_sku (table : List OutcomeRow) (sku : Str) (status : Str)
    (error : Option Str) (now : Str) : List OutcomeRow :=
  table.filter (fun r => ¬(r.sku = sku)) ++ [⟨sku, now, status, error⟩]

/-- The rows of an outcome table holding a given sku. -/
def rowsFor (table : List OutcomeRow) (sku : Str) : List OutcomeRow :=
  table.filter (fun r => r.sku = sku)

/-- Primary-key uniqueness of the `scraped_skus` table. -/
def outcomeKeysNodup (table : List OutcomeRow) : Prop :=
  (table.map (fun r => r.sku)).Nodup

/-- The whole state database (the three tables of `ensure_db`). -/
structure DB where
  discovered_skus : List SkuRow
  scraped_skus : List OutcomeRow
  discovered_series : List SeriesRow
deriving DecidableEq

/-- Row order used by `SELECT ... ORDER BY sku` over `discovered_skus`. -/
def skuRowLe (a b : SkuRow) : Prop := lexLe a.sku b.sku = true

instance : DecidableRel skuRowLe := fun _ _ => Bool.decEq _ _

/-- `SELECT sku, category, family, spec_url, product_name FROM discovered_skus
ORDER BY sku` (main, lines 436-442). -/
def selectSkusOrdered (db : DB) : List SkuRow :=
  List.insertionSort skuRowLe db.discovered_skus

/-- The `pending` list of the scrape loop (main, lines 444-447): the ordered
discovered skus minus those already `ok` (and, unless `--retry-errors`, those
already `error`). -/
def pendingList (db : DB) (retryErrors : Bool) : List SkuRow :=
  if retryErrors then
    (selectSkusOrdered db).filter
      (fun r => !((load_done_skus db.scraped_skus).contains r.sku))
  else
    (selectSkusOrdered db).filter
      (fun r => !((load_done_skus db.scraped_skus).contains r.sku) &&
        !((load_failed_skus db.scraped_skus).contains r.sku))

/-- The work-queue derivation of the scrape loop (main, lines 436-449):
`pending[:max_skus]` is applied only when `max_skus > 0` (Python:
`if args.max_skus and args.max_skus > 0`). -/
def buildQueue (db : DB) (retryErrors : Bool) (maxSkus : Int) : List SkuRow :=
  if 0 < maxSkus then (pendingList db retryErrors).take maxSkus.toNat
  else pendingList db retryErrors

/-- Stated from the spec's words (§4.2): an item is pending iff it has no `ok`
ScrapeOutcome and, if `retryErrors` is false, no `error` ScrapeOutcome either. -/
def specPending (db : DB) (retryErrors : Bool) (r : SkuRow) : Prop :=
  (¬∃ o ∈ db.scraped_skus, o.sku = r.sku ∧ o.status = str "ok") ∧
  (retryErrors = false → ¬∃ o ∈ db.scraped_skus, o.sku = r.sku ∧ o.status = str "error")

/-- Example state for the `{A: ok, B: error, C: no outcome}` scenario. -/
def rowA : SkuRow := ⟨str "A", str "cat", str "fam", str "uA", none⟩

/-- Example discovered item `B`. -/
def rowB : SkuRow := ⟨str "B", str "cat", str "fam", str "uB", none⟩

/-- Example discovered item `C`. -/
def rowC : SkuRow := ⟨str "C", str "cat", str "fam", str "uC", none⟩

/-- Example database: items `A`, `B`, `C` discovered (out of id order), `A`
marked `ok`, `B` marked `error`, `C` without outcome. -/
def exDB : DB :=
  ⟨[rowC, rowA, rowB],
   [⟨str "A", str "t1", str "ok", none⟩,
    ⟨str "B", str "t2", str "error", some (str "boom")⟩],
   []⟩

/-! ### Outcome upsert (`mark_sku`) -/

/-- One scrape attempt: the inputs of one `mark_sku` call, with the wall-clock
value `utc_now_iso()` would return at that call. -/
structure Attempt where
  sku : Str
  status : Str
  error : Option Str
  time : Str
deriving DecidableEq

/-- A sequence of scrape attempts applied to the outcome table in order. -/
def applyAttempts (table : List OutcomeRow) (attempts : List Attempt) : List OutcomeRow :=
  attempts.foldl (fun t a => mark_sku t a.sku a.status a.error a.time) table

/-- The most recent attempt in a sequence that concerns a given item. -/
def lastAttemptFor (attempts : List Attempt) (i : Str) : Option Attempt :=
  (attempts.filter (fun a => a.sku = i)).getLast?

/-! ### Extraction Worker (`scrape_spec_rows`, lines 273-313)

A detail page is modelled as the data the DOM queries would return: the
`data-title-start` attribute (possibly absent), the page title, and for each
`div.tech-section` its `h3` text and its list of (label, value) pairs. -/

/-- One `div.tech-section` of a detail page: its `h3` heading text and the
(label, value) text pairs of its `div.row.tech-section-row` children (the JS
returns `''` for a missing label or value node). -/
structure SpecSection where
  heading : Str
  pairs : List (Str × Str)
deriving DecidableEq

/-- Python `a or b` on strings: `b` if `a` is empty, else `a`. -/
def pyOrStr (a b : Str) : Str := if a = [] then b else a

/-- The inner loop over one section (lines 288-311): skip the section when its
normalized heading is empty, else collect each pair whose normalized label and
value are both nonempty. -/
def sectionRows (sec : SpecSection) : List (Str × Str × Str) :=
  let group_name := normalize_text sec.heading
  if group_name = [] then []
  else
    sec.pairs.foldl
      (fun acc p =>
        let label := normalize_text p.1
        let value := normalize_text p.2
        if label = [] ∨ value = [] then acc
        else acc ++ [(group_name, label, value)])
      []

/-- `scrape_spec_rows` (lines 273-313) on an already-fetched page: the
normalized product name (`data-title-start` or the page title) and the
collected (group, label, value) rows in page order. -/
def scrape_spec_rows (title : Option Str) (pageTitle : Str)
    (sections : List SpecSection) : Str × List (Str × Str × Str) :=
  let product_name := normalize_text (pyOrStr (title.getD []) (pyOrStr pageTitle []))
  (product_name, sections.foldl (fun acc sec => acc ++ sectionRows sec) [])

/-! ### Series-page item extraction (`extract_skus_from_series_page`,
lines 235-270) -/

/-- One `tr[data-product-id]` row of a series product table, as the page JS
returns it: the `data-product-id` attribute, and the product anchor's text
and `href` when the `td.ark-product-name a[href*="/products/sku/"]` anchor
exists (else `null`). -/
structure SeriesPageRow where
  sku : Option Str
  name : Option Str
  href : Option Str
deriving DecidableEq

/-- Python `needle in hay` on strings (substring test). -/
def containsSub (needle : Str) : Str → Bool
  | [] => needle.isEmpty
  | c :: rest => needle.isPrefixOf (c :: rest) || containsSub needle rest

/-- `BASE_URL` (line 44). -/
def BASE_URL : Str := str "https://www.intel.com"

/-- `to_abs_url` (lines 74-75); models `urllib.parse.urljoin(BASE_URL, href)`
for the hrefs this site serves: an absolute url is kept, a site-relative path
is resolved against `BASE_URL`. -/
def to_abs_url (href : Str) : Str :=
  if containsSub (str "://") href then href else BASE_URL ++ href

/-- The per-row conversion inside `extract_skus_from_series_page` (lines
252-268): strip the row id, normalize the name, and `continue` past rows with
an empty id, a missing or empty href, or an href without
`"specifications.html"`. -/
def rowToSkuLink (category family : Str) (item : SeriesPageRow) : Option SkuLink :=
  let sku := pyStrip (item.sku.getD [])
  let name := normalize_text (item.name.getD [])
  let href := item.href.getD []
  if sku = [] ∨ href = [] then none
  else if containsSub (str "specifications.html") href = false then none
  else some ⟨sku, name, category, family, to_abs_url href⟩

/-- `extract_skus_from_series_page` (lines 235-270) on an already-fetched
product table: append one `SkuLink` per well-formed row, in page order. -/
def extract_skus_from_series_page (category family : Str)
    (items : List SeriesPageRow) : List SkuLink :=
  items.foldl
    (fun acc item =>
      match rowToSkuLink category family item with
      | none => acc
      | some l => acc ++ [l])
    []

/-- Stated from the claim: a table row is malformed when it lacks a
machine-readable row identifier or lacks a detail link matching the
specifications URL pattern. -/
def malformedRow (item : SeriesPageRow) : Prop :=
  pyStrip (item.sku.getD []) = [] ∨ item.href.getD [] = [] ∨
    containsSub (str "specifications.html") (item.href.getD []) = false

instance (item : SeriesPageRow) : Decidable (malformedRow item) := by
  unfold malformedRow
  infer_instance

/-! ### Sink Writer (`write_csv_rows`, lines 316-363) -/

/-- The header row written when the output file is new (lines 330-343). -/
def headerLine : List Str :=
  [str "sku", str "product_name", str "product_url", str "category",
   str "family", str "spec_group", str "spec_name", str "spec_value",
   str "scraped_at"]

/-- One data line (lines 347-360): item metadata, one spec row, and the shared
`scraped_at` timestamp. -/
def csvLine (sku product_name product_url category family : Str)
    (row : Str × Str × Str) (scraped_at : Str) : List Str :=
  [sku, product_name, product_url, category, family, row.1, row.2.1, row.2.2,
   scraped_at]

/-- `write_csv_rows` (lines 316-363). The output log is `none` when the file
does not exist, else `some` of its lines. The file is opened in append mode,
the header is written iff the file was new, then one line per spec row is
appended and counted, all stamped with the single `utc_now_iso()` value read
before the loop (supplied here as `scraped_at`). -/
def write_csv_rows (file : Option (List (List Str)))
    (sku product_name product_url category family : Str)
    (spec_rows : List (Str × Str × Str)) (scraped_at : Str) :
    Option (List (List Str)) × Nat :=
  let is_new := file.isNone
  let content0 := file.getD []
  let content1 := if is_new then content0 ++ [headerLine] else content0
  let res := spec_rows.foldl
    (fun (acc : List (List Str) × Nat) row =>
      (acc.1 ++ [csvLine sku product_name product_url category family row scraped_at],
       acc.2 + 1))
    (content1, 0)
  (some res.1, res.2)

/-! ### The scrape loop (main, lines 453-485) -/

/-- The outcome of attempting one pending item: either the extracted
(product name, spec rows) of `scrape_spec_rows` followed by a successful csv
write, or the caught exception's detail string `str(e)` (navigation failure,
timeout, DOM absence, or a failure while writing the rows). -/
inductive ScrapeResult where
  | ok (product_name : Str) (rows : List (Str × Str × Str))
  | error (detail : Str)

/-- Mutable state across scrape-loop iterations: the `scraped_skus` table, the
output log, and the 1-based batch positions at which
`page.context.storage_state` was called inside the loop. -/
structure LoopState where
  scraped : List OutcomeRow
  csv : Option (List (List Str))
  saves : List Nat

/-- The body of the scrape loop for one item (lines 460-483): on success,
write the csv rows (falling back to the stored product name when the scraped
one is empty), mark the sku `ok`, and save the storage state when
`idx % 25 == 0`; on any exception, mark the sku `error` with the exception
detail and continue. `times idx` is the `utc_now_iso()` value during
iteration `idx`. -/
def processOne (oracle : SkuRow → ScrapeResult) (times : Nat → Str)
    (st : LoopState) (idx : Nat) (r : SkuRow) : LoopState :=
  match oracle r with
  | .ok name rows =>
    let product_name := pyOrStr name (r.product_name.getD [])
    let written := write_csv_rows st.csv r.sku product_name r.spec_url r.category
      r.family rows (times idx)
    { scraped := mark_sku st.scraped r.sku (str "ok") none (times idx),
      csv := written.1,
      saves := if idx % 25 = 0 then st.saves ++ [idx] else st.saves }
  | .error e =>
    { st with scraped := mark_sku st.scraped r.sku (str "error") (some e) (times idx) }

/-- The scrape loop: `for idx, r in enumerate(pending, start=1)` (line 453). -/
def scrapeLoopAux (oracle : SkuRow → ScrapeResult) (times : Nat → Str) :
    Nat → List SkuRow → LoopState → LoopState
  | _, [], st => st
  | idx, r :: rest, st =>
    scrapeLoopAux oracle times (idx + 1) rest (processOne oracle times st idx r)

/-- The scrape loop started at index 1. -/
def scrapeLoop (oracle : SkuRow → ScrapeResult) (times : Nat → Str)
    (pending : List SkuRow) (st : LoopState) : LoopState :=
  scrapeLoopAux oracle times 1 pending st

/-- The scrape phase (lines 453-485): the loop, then the unconditional
storage-state save at run end (line 485); the second component is the total
number of storage-state saves performed. -/
def scrapePhase (oracle : SkuRow → ScrapeResult) (times : Nat → Str)
    (pending : List SkuRow) (st : LoopState) : LoopState × Nat :=
  let final := scrapeLoop oracle times pending st
  (final, final.saves.length + 1)

/-- Primary-key distinctness of a pending batch (it is drawn from the
`discovered_skus` table, whose `sku` column is the primary key). -/
def pendingKeysNodup (pending : List SkuRow) : Prop :=
  (pending.map (fun r => r.sku)).Nodup

/-- Example batch for the C4 witness: item `1` fails, item `2` succeeds. -/
def exPending : List SkuRow :=
  [⟨str "1", str "c", str "f", str "u1", none⟩,
   ⟨str "2", str "c", str "f", str "u2", some (str "Nice CPU")⟩]

/-- Example oracle: a timeout on item `1`, a successful extraction on `2`. -/
def exOracle : SkuRow → ScrapeResult :=
  fun r => if r.sku = str "1" then .error (str "Timeout 120000ms exceeded")
    else .ok (str "Nice CPU") [(str "Essentials", str "Cores", str "8")]

/-! ### Storage-state checkpointing (C8) -/

/-- The 1-based batch positions at which the code saves the storage state
during the loop: position divisible by 25 and that item processed
successfully (lines 477-479 sit inside the `try`, after `mark_sku ok`). -/
def periodicSaveIdxs (oracle : SkuRow → ScrapeResult) (pending : List SkuRow) : List Nat :=
  (pending.enumFrom 1).filterMap
    (fun p => match oracle p.2 with
      | .ok _ _ => if p.1 % 25 = 0 then some p.1 else none
      | .error _ => none)

/-- The number of successfully processed items of a batch. -/
def successCount (oracle : SkuRow → ScrapeResult) (pending : List SkuRow) : Nat :=
  (pending.filter
    (fun r => match oracle r with | .ok _ _ => true | .error _ => false)).length

/-- Stated from the claim: the loop externalizes the session credentials every
25 successfully processed items — so at least `successes / 25` periodic saves
happen. -/
def claimC8Statement : Prop :=
  ∀ (oracle : SkuRow → ScrapeResult) (times : Nat → Str) (pending : List SkuRow)
    (scraped0 : List OutcomeRow) (csv0 : Option (List (List Str))),
    successCount oracle pending / 25 ≤
      (scrapeLoop oracle times pending ⟨scraped0, csv0, []⟩).saves.length

/-- 26 items with distinct one-letter ids `A`..`Z`. -/
def cexPending : List SkuRow :=
  (List.range 26).map (fun n => ⟨[Char.ofNat (65 + n)], str "c", str "f", str "u", none⟩)

/-- Item `Y` — the one at batch position 25 — fails; all others succeed. -/
def cexOracle : SkuRow → ScrapeResult :=
  fun r => if r.sku = [Char.ofNat 89] then .error (str "boom")
    else .ok (str "P") []

/-! ### Discovery phase failure path (main, lines 409-433)

The discovery loops run inside a `try` that has only a `finally`: no handler
catches the exception `goto_with_retry` re-raises after its third failed
attempt, so it propagates out of the loop. The loops are modelled with a page
oracle giving, per category (resp. series), either the fetched links or the
exception detail after retry exhaustion. -/

/-- The category loop (lines 416-421): store each category's series; an
uncaught fetch failure ends the loop, keeping the rows already committed and
carrying the escaping exception. -/
def discoverSeriesLoop (oracle : Str → Except Str (List SeriesLink)) :
    List Str → List SeriesRow → List SeriesRow × Option Str
  | [], table => (table, none)
  | c :: cs, table =>
    match oracle c with
    | .error e => (table, some e)
    | .ok series => discoverSeriesLoop oracle cs (store_series table series)

/-- The series loop (lines 426-431): store each series page's skus; an
uncaught fetch failure ends the loop likewise. -/
def extractSkusLoop (oracle : SeriesLink → Except Str (List SkuLink)) :
    List SeriesLink → List SkuRow → List SkuRow × Option Str
  | [], table => (table, none)
  | s :: ss, table =>
    match oracle s with
    | .error e => (table, some e)
    | .ok skus => extractSkusLoop oracle ss (store_skus table skus)

/-- Stated from the claim: after a discovery-page failure the walker logs and
continues with the next category, so every category whose own fetch succeeds
still gets its series stored. -/
def claimC5Statement : Prop :=
  ∀ (oracle : Str → Except Str (List SeriesLink)) (cats : List Str)
    (table : List SeriesRow) (c : Str) (series : List SeriesLink) (s : SeriesLink),
    c ∈ cats → oracle c = .ok series → s ∈ series →
    ∃ row ∈ (discoverSeriesLoop oracle cats table).1, row.url = s.url

/-- Category oracle for the counterexample: the first category's page fails
after retry exhaustion, the second succeeds. -/
def cexCatOracle : Str → Except Str (List SeriesLink) :=
  fun c => if c = str "cat1" then .error (str "net down")
    else .ok [⟨str "cat2", str "fam2", str "u2"⟩]

/-! ### Normal-form lemmas for `normalize_text` -/

theorem pyIsSpace_space : pyIsSpace ' ' = true := by decide

theorem pyIsSpace_nbsp : pyIsSpace nbspChar = true := by decide

theorem space_ne_nbsp : (' ' : Char) ≠ nbspChar := by decide

/-- Every word produced by `splitAux` is nonempty and whitespace-free, provided
the accumulator is whitespace-free. -/
theorem splitAux_words (s : Str) : ∀ acc, (∀ c ∈ acc, pyIsSpace c = false) →
    ∀ w ∈ splitAux s acc, w ≠ [] ∧ ∀ c ∈ w, pyIsSpace c = false := by
  induction s with
  | nil =>
    intro acc hacc w hw
    by_cases h : acc = []
    · simp [splitAux, h] at hw
    · simp only [splitAux, if_neg h, List.mem_singleton] at hw
      subst hw
      refine ⟨by simpa using h, fun c hc => hacc c (by simpa using hc)⟩
  | cons c rest ih =>
    intro acc hacc w hw
    by_cases hs : pyIsSpace c = true
    · by_cases h : acc = []
      · simp only [splitAux, if_pos hs, if_pos h] at hw
        exact ih [] (by simp) w hw
      · simp only [splitAux, if_pos hs, if_neg h, List.mem_cons] at hw
        rcases hw with hw | hw
        · subst hw
          refine ⟨by simpa using h, fun d hd => hacc d (by simpa using hd)⟩
        · exact ih [] (by simp) w hw
    · simp only [splitAux, if_neg hs] at hw
      refine ih (c :: acc) ?_ w hw
      intro d hd
      rcases List.mem_cons.mp hd with rfl | hd
      · simpa using hs
      · exact hacc d hd

/-- `splitAux` over a whitespace-free chunk accumulates it (reversed). -/
theorem splitAux_chunk (w : Str) : ∀ rest acc, (∀ c ∈ w, pyIsSpace c = false) →
    splitAux (w ++ rest) acc = splitAux rest (w.reverse ++ acc) := by
  induction w with
  | nil => intro rest acc _; simp
  | cons c w ih =>
    intro rest acc hw
    have hc : ¬pyIsSpace c = true := by simp [hw c (by simp)]
    show splitAux (c :: (w ++ rest)) acc = _
    simp only [splitAux, if_neg hc]
    rw [ih rest (c :: acc) (fun d hd => hw d (by simp [hd]))]
    simp

/-- `splitAux` at a space with a nonempty accumulator cuts the current word. -/
theorem splitAux_space (rest : Str) (acc : Str) (h : acc ≠ []) :
    splitAux (' ' :: rest) acc = acc.reverse :: splitAux rest [] := by
  simp only [splitAux, if_pos pyIsSpace_space, if_neg h]

/-- The words of `pySplit` are nonempty and whitespace-free. -/
theorem pySplit_words (s : Str) :
    ∀ w ∈ pySplit s, w ≠ [] ∧ ∀ c ∈ w, pyIsSpace c = false :=
  splitAux_words s [] (by simp)

/-- Splitting the space-join of nonempty whitespace-free words recovers them. -/
theorem pySplit_joinWords : ∀ ws : List Str,
    (∀ w ∈ ws, w ≠ [] ∧ ∀ c ∈ w, pyIsSpace c = false) →
    pySplit (joinWords ws) = ws := by
  intro ws
  induction ws with
  | nil => intro _; rfl
  | cons w ws ih =>
    intro h
    obtain ⟨hw, hwc⟩ := h w (by simp)
    cases ws with
    | nil =>
      show splitAux (joinWords [w]) [] = [w]
      have hjw : joinWords [w] = w := rfl
      rw [hjw, ← List.append_nil w, splitAux_chunk w [] [] hwc]
      simp [splitAux, hw]
    | cons v ws2 =>
      have hj : joinWords (w :: v :: ws2) = w ++ ' ' :: joinWords (v :: ws2) := rfl
      show splitAux (joinWords (w :: v :: ws2)) [] = w :: v :: ws2
      rw [hj, splitAux_chunk w _ [] hwc,
        splitAux_space _ _ (by simpa using hw)]
      have := ih (fun u hu => h u (by simp [hu]))
      simpa [pySplit] using this

/-- Every character of a space-join is a space separator or a word character. -/
theorem mem_joinWords : ∀ ws : List Str, ∀ c ∈ joinWords ws, c = ' ' ∨ ∃ w ∈ ws, c ∈ w := by
  intro ws
  induction ws with
  | nil => simp [joinWords]
  | cons w ws ih =>
    cases ws with
    | nil =>
      intro c hc
      right
      exact ⟨w, by simp, by simpa [joinWords] using hc⟩
    | cons v ws2 =>
      intro c hc
      rw [show joinWords (w :: v :: ws2) = w ++ ' ' :: joinWords (v :: ws2) from rfl] at hc
      rcases List.mem_append.mp hc with h | h
      · right; exact ⟨w, by simp, h⟩
      · rcases List.mem_cons.mp h with rfl | h
        · left; rfl
        · rcases ih c h with h2 | ⟨u, hu, hcu⟩
          · left; exact h2
          · right; exact ⟨u, by simp [hu], hcu⟩

/-- The head of a space-join of good words is not whitespace. -/
theorem joinWords_head_not_space (ws : List Str)
    (h : ∀ w ∈ ws, w ≠ [] ∧ ∀ c ∈ w, pyIsSpace c = false) :
    ∀ c, (joinWords ws).head? = some c → pyIsSpace c = false := by
  cases ws with
  | nil => simp [joinWords]
  | cons w ws =>
    obtain ⟨hw, hwc⟩ := h w (by simp)
    intro c hc
    have hh : (joinWords (w :: ws)).head? = w.head? := by
      cases ws with
      | nil => rfl
      | cons v ws2 =>
        rw [show joinWords (w :: v :: ws2) = w ++ ' ' :: joinWords (v :: ws2) from rfl,
          List.head?_append]
        cases w with
        | nil => exact absurd rfl hw
        | cons a w2 => rfl
    rw [hh] at hc
    cases w with
    | nil => exact absurd rfl hw
    | cons a w2 =>
      have hac : a = c := by simpa using hc
      subst hac
      exact hwc a (by simp)

/-- A space-join of nonempty words is nonempty when the word list is. -/
theorem joinWords_ne_nil (w : Str) (ws : List Str) (hw : w ≠ []) :
    joinWords (w :: ws) ≠ [] := by
  cases ws with
  | nil => simpa [joinWords] using hw
  | cons v ws2 =>
    rw [show joinWords (w :: v :: ws2) = w ++ ' ' :: joinWords (v :: ws2) from rfl]
    simp

/-- The last character of a space-join of good words is not whitespace. -/
theorem joinWords_getLast_not_space : ∀ ws : List Str,
    (∀ w ∈ ws, w ≠ [] ∧ ∀ c ∈ w, pyIsSpace c = false) →
    ∀ c, (joinWords ws).getLast? = some c → pyIsSpace c = false := by
  intro ws
  induction ws with
  | nil => simp [joinWords]
  | cons w ws ih =>
    intro h c hc
    obtain ⟨hw, hwc⟩ := h w (by simp)
    cases ws with
    | nil =>
      have hc2 : w.getLast? = some c := by simpa [joinWords] using hc
      obtain ⟨ys, hys⟩ := List.getLast?_eq_some_iff.mp hc2
      exact hwc c (by simp [hys])
    | cons v ws2 =>
      obtain ⟨hv, hvc⟩ := h v (by simp)
      rw [show joinWords (w :: v :: ws2) = w ++ ' ' :: joinWords (v :: ws2) from rfl] at hc
      rw [List.getLast?_append_of_ne_nil _ (by simp)] at hc
      rw [show (' ' :: joinWords (v :: ws2)) = [' '] ++ joinWords (v :: ws2) from rfl] at hc
      rw [List.getLast?_append_of_ne_nil _ (joinWords_ne_nil v ws2 hv)] at hc
      exact ih (fun u hu => h u (by simp [hu])) c hc

/-- A list of non-whitespace characters never has two adjacent whitespace characters. -/
theorem chain'_of_all_not_space (l : Str) (h : ∀ c ∈ l, pyIsSpace c = false) :
    List.Chain' (fun a b => ¬(pyIsSpace a = true ∧ pyIsSpace b = true)) l := by
  induction l with
  | nil => simp
  | cons a l ih =>
    rw [List.chain'_cons']
    refine ⟨?_, ih (fun c hc => h c (by simp [hc]))⟩
    intro b _
    intro hab
    have := h a (by simp)
    rw [this] at hab
    exact Bool.false_ne_true hab.1

/-- A space-join of good words never has two adjacent whitespace characters. -/
theorem joinWords_chain' : ∀ ws : List Str,
    (∀ w ∈ ws, w ≠ [] ∧ ∀ c ∈ w, pyIsSpace c = false) →
    List.Chain' (fun a b => ¬(pyIsSpace a = true ∧ pyIsSpace b = true)) (joinWords ws) := by
  intro ws
  induction ws with
  | nil => simp [joinWords]
  | cons w ws ih =>
    intro h
    obtain ⟨hw, hwc⟩ := h w (by simp)
    cases ws with
    | nil => exact chain'_of_all_not_space w hwc
    | cons v ws2 =>
      rw [show joinWords (w :: v :: ws2) = w ++ ' ' :: joinWords (v :: ws2) from rfl]
      rw [List.chain'_append]
      refine ⟨chain'_of_all_not_space w hwc, ?_, ?_⟩
      · rw [List.chain'_cons']
        refine ⟨?_, ih (fun u hu => h u (by simp [hu]))⟩
        intro b hb
        intro hab
        have hbmem : (joinWords (v :: ws2)).head? = some b := Option.mem_def.mp hb
        have := joinWords_head_not_space (v :: ws2) (fun u hu => h u (by simp [hu])) b hbmem
        rw [this] at hab
        exact Bool.false_ne_true hab.2
      · intro x hx y hy
        intro hxy
        have hx2 : w.getLast? = some x := Option.mem_def.mp hx
        obtain ⟨ys, hys⟩ := List.getLast?_eq_some_iff.mp hx2
        have := hwc x (by simp [hys])
        rw [this] at hxy
        exact Bool.false_ne_true hxy.1

/-- `dropWhile` is the identity when the head does not satisfy the predicate. -/
theorem dropWhile_eq_self_of_head (p : Char → Bool) (l : Str)
    (h : ∀ c, l.head? = some c → p c = false) : l.dropWhile p = l := by
  cases l with
  | nil => rfl
  | cons a l2 =>
    rw [List.dropWhile_cons]
    simp [h a rfl]

/-- `pyStrip` is the identity on strings with non-whitespace ends. -/
theorem pyStrip_eq_self (s : Str)
    (h1 : ∀ c, s.head? = some c → pyIsSpace c = false)
    (h2 : ∀ c, s.getLast? = some c → pyIsSpace c = false) : pyStrip s = s := by
  unfold pyStrip
  rw [dropWhile_eq_self_of_head _ s h1]
  rw [dropWhile_eq_self_of_head _ s.reverse
    (by intro c hc; exact h2 c (by rwa [List.head?_reverse] at hc))]
  exact List.reverse_reverse s

/-- The final `.strip()` in `normalize_text` is a no-op. -/
theorem normalize_text_eq_joinWords (s : Str) :
    normalize_text s = joinWords (pySplit (replaceNbsp s)) := by
  unfold normalize_text
  exact pyStrip_eq_self _
    (joinWords_head_not_space _ (pySplit_words _))
    (joinWords_getLast_not_space _ (pySplit_words _))

/-- `normalize_text` output contains no non-breaking space. -/
theorem normalize_text_no_nbsp (s : Str) : ∀ c ∈ normalize_text s, c ≠ nbspChar := by
  rw [normalize_text_eq_joinWords]
  intro c hc
  rcases mem_joinWords _ c hc with rfl | ⟨w, hw, hcw⟩
  · exact space_ne_nbsp
  · intro hcn
    have := (pySplit_words _ w hw).2 c hcw
    rw [hcn, pyIsSpace_nbsp] at this
    simp at this

/-- `replace("\xa0", " ")` is the identity on nbsp-free strings. -/
theorem replaceNbsp_eq_self (s : Str) (h : ∀ c ∈ s, c ≠ nbspChar) : replaceNbsp s = s := by
  unfold replaceNbsp
  conv_rhs => rw [← List.map_id s]
  exact List.map_congr_left (fun c hc => by simp [h c hc])

/-- `normalize_text` is idempotent. -/
theorem normalize_text_idem (s : Str) :
    normalize_text (normalize_text s) = normalize_text s := by
  have h1 := normalize_text_eq_joinWords s
  have hwords := pySplit_words (replaceNbsp s)
  have h2 : replaceNbsp (normalize_text s) = normalize_text s :=
    replaceNbsp_eq_self _ (normalize_text_no_nbsp s)
  calc normalize_text (normalize_text s)
      = pyStrip (joinWords (pySplit (replaceNbsp (normalize_text s)))) := rfl
    _ = pyStrip (joinWords (pySplit (normalize_text s))) := by rw [h2]
    _ = pyStrip (joinWords (pySplit (joinWords (pySplit (replaceNbsp s))))) := by rw [h1]
    _ = pyStrip (joinWords (pySplit (replaceNbsp s))) := by
        rw [pySplit_joinWords _ hwords]
    _ = normalize_text s := rfl

theorem lexLe_total : ∀ a b : Str, lexLe a b = true ∨ lexLe b a = true := by
  intro a
  induction a with
  | nil => intro b; left; rfl
  | cons x as ih =>
    intro b
    cases b with
    | nil => right; rfl
    | cons y bs =>
      by_cases hxy : x.toNat < y.toNat
      · left
        simp [lexLe, hxy]
      · by_cases hyx : y.toNat < x.toNat
        · right
          simp [lexLe, hyx]
        · rcases ih bs with h | h
          · left; simp [lexLe, hxy, hyx, h]
          · right; simp [lexLe, hxy, hyx, h]

theorem lexLe_trans : ∀ a b c : Str, lexLe a b = true → lexLe b c = true → lexLe a c = true := by
  intro a
  induction a with
  | nil => intro b c _ _; rfl
  | cons x as ih =>
    intro b c hab hbc
    cases b with
    | nil => simp [lexLe] at hab
    | cons y bs =>
      cases c with
      | nil => simp [lexLe] at hbc
      | cons z cs =>
        by_cases hxy : x.toNat < y.toNat
        · by_cases hyz : y.toNat < z.toNat
          · simp [lexLe, Nat.lt_trans hxy hyz]
          · by_cases hzy : z.toNat < y.toNat
            · simp [lexLe, hyz, hzy] at hbc
            · have hyz2 : y.toNat = z.toNat := Nat.le_antisymm (Nat.le_of_not_lt hzy) (Nat.le_of_not_lt hyz)
              simp [lexLe, hyz2 ▸ hxy]
        · by_cases hyx : y.toNat < x.toNat
          · simp [lexLe, hxy, hyx] at hab
          · have hxy2 : x.toNat = y.toNat := Nat.le_antisymm (Nat.le_of_not_lt hyx) (Nat.le_of_not_lt hxy)
            simp only [lexLe, hxy, hyx, if_neg, if_false] at hab
            by_cases hyz : y.toNat < z.toNat
            · simp [lexLe, hxy2 ▸ hyz]
            · by_cases hzy : z.toNat < y.toNat
              · simp [lexLe, hyz, hzy] at hbc
              · have hyz2 : y.toNat = z.toNat := Nat.le_antisymm (Nat.le_of_not_lt hzy) (Nat.le_of_not_lt hyz)
                simp only [lexLe, hyz, hzy, if_neg, if_false] at hbc
                have hxz : ¬x.toNat < z.toNat := by omega
                have hzx : ¬z.toNat < x.toNat := by omega
                simp only [lexLe, hxz, hzx, if_neg, if_false]
                exact ih bs cs hab hbc

theorem load_done_contains (scraped : List OutcomeRow) (sku : Str) :
    (load_done_skus scraped).contains sku = true ↔
      ∃ o ∈ scraped, o.sku = sku ∧ o.status = str "ok" := by
  unfold load_done_skus
  rw [List.contains_iff_exists_mem_beq]
  constructor
  · rintro ⟨x, hx, hbeq⟩
    rcases List.mem_map.mp hx with ⟨o, ho, rfl⟩
    rcases List.mem_filter.mp ho with ⟨hom, hst⟩
    exact ⟨o, hom, (eq_of_beq hbeq).symm, by simpa using hst⟩
  · rintro ⟨o, hom, hsku, hst⟩
    refine ⟨o.sku, List.mem_map.mpr ⟨o, List.mem_filter.mpr ⟨hom, by simpa using hst⟩, rfl⟩, ?_⟩
    exact beq_iff_eq.mpr hsku.symm

theorem load_failed_contains (scraped : List OutcomeRow) (sku : Str) :
    (load_failed_skus scraped).contains sku = true ↔
      ∃ o ∈ scraped, o.sku = sku ∧ o.status = str "error" := by
  unfold load_failed_skus
  rw [List.contains_iff_exists_mem_beq]
  constructor
  · rintro ⟨x, hx, hbeq⟩
    rcases List.mem_map.mp hx with ⟨o, ho, rfl⟩
    rcases List.mem_filter.mp ho with ⟨hom, hst⟩
    exact ⟨o, hom, (eq_of_beq hbeq).symm, by simpa using hst⟩
  · rintro ⟨o, hom, hsku, hst⟩
    refine ⟨o.sku, List.mem_map.mpr ⟨o, List.mem_filter.mpr ⟨hom, by simpa using hst⟩, rfl⟩, ?_⟩
    exact beq_iff_eq.mpr hsku.symm

theorem sorted_pendingList (db : DB) (retryErrors : Bool) :
    List.Sorted skuRowLe (pendingList db retryErrors) := by
  haveI : IsTotal SkuRow skuRowLe := ⟨fun a b => lexLe_total a.sku b.sku⟩
  haveI : IsTrans SkuRow skuRowLe := ⟨fun a b c => lexLe_trans a.sku b.sku c.sku⟩
  have hs : List.Sorted skuRowLe (selectSkusOrdered db) :=
    List.sorted_insertionSort skuRowLe db.discovered_skus
  cases retryErrors with
  | false => exact List.Pairwise.filter _ hs
  | true => exact List.Pairwise.filter _ hs

theorem buildQueue_zero (db : DB) (retryErrors : Bool) :
    buildQueue db retryErrors 0 = pendingList db retryErrors := by
  simp [buildQueue]

/-- The code's Boolean pending test agrees with the spec's pending predicate. -/
theorem pending_filter_iff (db : DB) (retryErrors : Bool) (r : SkuRow) :
    (if retryErrors then !((load_done_skus db.scraped_skus).contains r.sku)
     else !((load_done_skus db.scraped_skus).contains r.sku) &&
       !((load_failed_skus db.scraped_skus).contains r.sku)) = true ↔
      specPending db retryErrors r := by
  unfold specPending
  cases retryErrors with
  | false =>
    simp only [if_neg Bool.false_ne_true, Bool.and_eq_true, Bool.not_eq_true']
    constructor
    · rintro ⟨h1, h2⟩
      refine ⟨?_, fun _ => ?_⟩
      · intro hex
        rw [(load_done_contains db.scraped_skus r.sku).mpr hex] at h1
        cases h1
      · intro hex
        rw [(load_failed_contains db.scraped_skus r.sku).mpr hex] at h2
        cases h2
    · rintro ⟨h1, h2⟩
      constructor
      · cases hc : (load_done_skus db.scraped_skus).contains r.sku with
        | false => rfl
        | true => exact absurd ((load_done_contains db.scraped_skus r.sku).mp hc) h1
      · cases hc : (load_failed_skus db.scraped_skus).contains r.sku with
        | false => rfl
        | true => exact absurd ((load_failed_contains db.scraped_skus r.sku).mp hc) (h2 (by simp))
  | true =>
    simp only [if_pos, Bool.not_eq_true']
    constructor
    · intro h1
      refine ⟨?_, fun h => by cases h⟩
      intro hex
      rw [(load_done_contains db.scraped_skus r.sku).mpr hex] at h1
      cases h1
    · rintro ⟨h1, _⟩
      cases hc : (load_done_skus db.scraped_skus).contains r.sku with
      | false => rfl
      | true => exact absurd ((load_done_contains db.scraped_skus r.sku).mp hc) h1

theorem mem_pendingList (db : DB) (retryErrors : Bool) (r : SkuRow) :
    r ∈ pendingList db retryErrors ↔
      r ∈ db.discovered_skus ∧ specPending db retryErrors r := by
  have hperm : ∀ x : SkuRow, x ∈ selectSkusOrdered db ↔ x ∈ db.discovered_skus :=
    fun x => (List.perm_insertionSort skuRowLe db.discovered_skus).mem_iff
  have hiff := pending_filter_iff db retryErrors r
  cases retryErrors with
  | false =>
    rw [if_neg Bool.false_ne_true] at hiff
    unfold pendingList
    rw [if_neg Bool.false_ne_true, List.mem_filter, hperm, hiff]
  | true =>
    rw [if_pos rfl] at hiff
    unfold pendingList
    rw [if_pos rfl, List.mem_filter, hperm, hiff]

/-- **C1**: for every state-store contents and run flags, the work queue holds
exactly the discovered items with no `ok` outcome (and, when `retryErrors` is
false, no `error` outcome either), is sorted ascending by item id, and a
`limit > 0` truncates to the first `limit` entries after ordering while
`limit = 0` means no truncation; on `{A: ok, B: error, C: no outcome}`,
`build(retryErrors=false)` yields `[C]` and `build(retryErrors=true)` yields
`[B, C]` in id order. -/
theorem claim_C1_work_queue (db : DB) (retryErrors : Bool) (maxSkus : Int) :
    List.Sorted skuRowLe (buildQueue db retryErrors maxSkus) ∧
    (∀ r : SkuRow, r ∈ buildQueue db retryErrors 0 ↔
      r ∈ db.discovered_skus ∧ specPending db retryErrors r) ∧
    (0 < maxSkus →
      buildQueue db retryErrors maxSkus = (buildQueue db retryErrors 0).take maxSkus.toNat) ∧
    buildQueue exDB false 0 = [rowC] ∧
    buildQueue exDB true 0 = [rowB, rowC] := by
  refine ⟨?_, ?_, ?_, by decide, by decide⟩
  · unfold buildQueue
    by_cases hm : (0 : Int) < maxSkus
    · rw [if_pos hm]
      exact (sorted_pendingList db retryErrors).take
    · rw [if_neg hm]
      exact sorted_pendingList db retryErrors
  · intro r
    rw [buildQueue_zero]
    exact mem_pendingList db retryErrors r
  · intro hm
    rw [buildQueue_zero]
    unfold buildQueue
    rw [if_pos hm]

/-- Witness for C1: the cap conjunct applied at `limit = 1` on the example
database. -/
theorem claim_C1_work_queue_witness :
    buildQueue exDB true 1 = (buildQueue exDB true 0).take (1 : Int).toNat :=
  (claim_C1_work_queue exDB true 1).2.2.1 (by decide)

/-- `INSERT OR REPLACE` leaves exactly the new row under its key and does not
touch rows under other keys. -/
theorem rowsFor_mark (table : List OutcomeRow) (sku status : Str) (error : Option Str)
    (now : Str) (i : Str) :
    rowsFor (mark_sku table sku status error now) i =
      if i = sku then [⟨sku, now, status, error⟩] else rowsFor table i := by
  unfold rowsFor mark_sku
  rw [List.filter_append]
  by_cases h : i = sku
  · subst h
    rw [List.filter_filter]
    have h1 : List.filter
        (fun r : OutcomeRow => decide (r.sku = i) && decide (¬r.sku = i)) table = [] := by
      apply List.filter_eq_nil_iff.mpr
      intro a _
      by_cases ha : a.sku = i
      · simp [ha]
      · simp [ha]
    rw [h1]
    simp
  · rw [List.filter_filter]
    have h1 : List.filter
        (fun r : OutcomeRow => decide (r.sku = i) && decide (¬r.sku = sku)) table =
        List.filter (fun r : OutcomeRow => decide (r.sku = i)) table := by
      apply List.filter_congr
      intro a _
      by_cases ha : a.sku = i
      · simp [ha, h]
      · simp [ha]
    rw [h1, if_neg h]
    simp
    exact fun hsi => h hsi.symm

/-- `mark_sku` preserves primary-key uniqueness of `scraped_skus`. -/
theorem outcomeKeysNodup_mark (table : List OutcomeRow) (sku status : Str)
    (error : Option Str) (now : Str) (h : outcomeKeysNodup table) :
    outcomeKeysNodup (mark_sku table sku status error now) := by
  unfold outcomeKeysNodup at h ⊢
  unfold mark_sku
  rw [List.map_append]
  apply List.Nodup.append
  · exact h.sublist (List.Sublist.map _ (List.filter_sublist table))
  · exact List.nodup_singleton _
  · intro x hx hx2
    rcases List.mem_map.mp hx with ⟨a, ha, rfl⟩
    have ha2 : ¬a.sku = sku := by simpa using (List.mem_filter.mp ha).2
    exact ha2 (by simpa using hx2)

/-- Attempts touching only other items leave an item's rows unchanged. -/
theorem rowsFor_applyAttempts_untouched (attempts : List Attempt) :
    ∀ table i, (∀ a ∈ attempts, a.sku ≠ i) →
      rowsFor (applyAttempts table attempts) i = rowsFor table i := by
  induction attempts with
  | nil => intro table i _; rfl
  | cons a as ih =>
    intro table i h
    show rowsFor (applyAttempts (mark_sku table a.sku a.status a.error a.time) as) i = _
    rw [ih _ i (fun b hb => h b (by simp [hb]))]
    rw [rowsFor_mark]
    rw [if_neg (fun hi => h a (by simp) hi.symm)]

/-- After a sequence of attempts, the rows for an item that was attempted are
exactly one row holding the most recent attempt's data. -/
theorem rowsFor_applyAttempts (attempts : List Attempt) :
    ∀ table i a, lastAttemptFor attempts i = some a →
      rowsFor (applyAttempts table attempts) i = [⟨a.sku, a.time, a.status, a.error⟩] := by
  induction attempts with
  | nil => intro table i a h; simp [lastAttemptFor] at h
  | cons b bs ih =>
    intro table i a h
    show rowsFor (applyAttempts (mark_sku table b.sku b.status b.error b.time) bs) i = _
    by_cases hb : b.sku = i
    · cases hrest : List.filter (fun x : Attempt => decide (x.sku = i)) bs with
      | nil =>
        have hno : ∀ x ∈ bs, x.sku ≠ i := by
          intro x hx
          have := List.filter_eq_nil_iff.mp hrest x hx
          simpa using this
        have ha : a = b := by
          unfold lastAttemptFor at h
          rw [List.filter_cons_of_pos (by simpa using hb), hrest] at h
          simpa using h.symm
        subst ha
        rw [rowsFor_applyAttempts_untouched bs _ i hno, rowsFor_mark, if_pos hb.symm, hb]
      | cons c cs =>
        have hlast : lastAttemptFor bs i = some a := by
          unfold lastAttemptFor at h ⊢
          rw [List.filter_cons_of_pos (by simpa using hb), hrest] at h
          rw [hrest]
          rw [List.getLast?_cons_cons] at h
          exact h
        exact ih _ i a hlast
    · have hlast : lastAttemptFor bs i = some a := by
        unfold lastAttemptFor at h ⊢
        rwa [List.filter_cons_of_neg (by simpa using hb)] at h
      exact ih _ i a hlast

/-- `applyAttempts` preserves primary-key uniqueness. -/
theorem outcomeKeysNodup_applyAttempts (attempts : List Attempt) :
    ∀ table, outcomeKeysNodup table → outcomeKeysNodup (applyAttempts table attempts) := by
  induction attempts with
  | nil => intro table h; exact h
  | cons a as ih =>
    intro table h
    exact ih _ (outcomeKeysNodup_mark table a.sku a.status a.error a.time h)

/-- **C2**: after any sequence of scrape attempts the outcome store holds at
most one row per item id, and the row for an attempted item carries exactly the
most recent attempt's status, timestamp and error detail; marking an item
`error` then `ok` leaves exactly one row for it, with status `ok`. -/
theorem claim_C2_outcome_upsert (table : List OutcomeRow) (attempts : List Attempt)
    (i : Str) (h : outcomeKeysNodup table) :
    outcomeKeysNodup (applyAttempts table attempts) ∧
    (∀ a, lastAttemptFor attempts i = some a →
      rowsFor (applyAttempts table attempts) i = [⟨a.sku, a.time, a.status, a.error⟩]) ∧
    applyAttempts []
      [⟨str "X", str "error", some (str "timeout"), str "t1"⟩,
       ⟨str "X", str "ok", none, str "t2"⟩] =
      [⟨str "X", str "t2", str "ok", none⟩] := by
  refine ⟨outcomeKeysNodup_applyAttempts attempts table h, ?_, by decide⟩
  intro a ha
  exact rowsFor_applyAttempts attempts table i a ha

/-- Witness for C2: the error-then-ok scenario run through the theorem at the
empty store. -/
theorem claim_C2_outcome_upsert_witness :
    rowsFor
      (applyAttempts []
        [⟨str "X", str "error", some (str "timeout"), str "t1"⟩,
         ⟨str "X", str "ok", none, str "t2"⟩]) (str "X") =
      [⟨str "X", str "t2", str "ok", none⟩] :=
  (claim_C2_outcome_upsert [] _ (str "X") (by simp [outcomeKeysNodup])).2.1
    ⟨str "X", str "ok", none, str "t2"⟩ (by decide)

/-! ### Insert-if-absent discovery storage (`store_series`, `store_skus`) -/

/-- `INSERT OR IGNORE` into `discovered_series` is a no-op when the url is
already present. -/
theorem insert_series_present (table : List SeriesRow) (s : SeriesLink)
    (h : ∃ row ∈ table, row.url = s.url) : insert_series table s = table := by
  unfold insert_series
  rcases h with ⟨row, hrow, hurl⟩
  rw [if_pos (List.any_eq_true.mpr ⟨row, hrow, by simpa using hurl⟩)]

/-- `INSERT OR IGNORE` into `discovered_skus` is a no-op when the sku is
already present. -/
theorem insert_sku_present (table : List SkuRow) (s : SkuLink)
    (h : ∃ row ∈ table, row.sku = s.sku) : insert_sku table s = table := by
  unfold insert_sku
  rcases h with ⟨row, hrow, hsku⟩
  rw [if_pos (List.any_eq_true.mpr ⟨row, hrow, by simpa using hsku⟩)]

theorem mem_insert_series (table : List SeriesRow) (s : SeriesLink) (row : SeriesRow)
    (h : row ∈ table) : row ∈ insert_series table s := by
  unfold insert_series
  by_cases hc : table.any (fun r => decide (r.url = s.url)) = true
  · rwa [if_pos hc]
  · rw [if_neg hc]
    exact List.mem_append_left _ h

theorem mem_insert_sku (table : List SkuRow) (s : SkuLink) (row : SkuRow)
    (h : row ∈ table) : row ∈ insert_sku table s := by
  unfold insert_sku
  by_cases hc : table.any (fun r => decide (r.sku = s.sku)) = true
  · rwa [if_pos hc]
  · rw [if_neg hc]
    exact List.mem_append_left _ h

theorem insert_series_covers (table : List SeriesRow) (s : SeriesLink) :
    ∃ row ∈ insert_series table s, row.url = s.url := by
  unfold insert_series
  by_cases hc : table.any (fun r => decide (r.url = s.url)) = true
  · rw [if_pos hc]
    rcases List.any_eq_true.mp hc with ⟨row, hrow, hurl⟩
    exact ⟨row, hrow, by simpa using hurl⟩
  · rw [if_neg hc]
    exact ⟨⟨s.url, s.category, s.family⟩, List.mem_append_right _ (by simp), rfl⟩

theorem insert_sku_covers (table : List SkuRow) (s : SkuLink) :
    ∃ row ∈ insert_sku table s, row.sku = s.sku := by
  unfold insert_sku
  by_cases hc : table.any (fun r => decide (r.sku = s.sku)) = true
  · rw [if_pos hc]
    rcases List.any_eq_true.mp hc with ⟨row, hrow, hsku⟩
    exact ⟨row, hrow, by simpa using hsku⟩
  · rw [if_neg hc]
    exact ⟨⟨s.sku, s.category, s.family, s.spec_url, some s.product_name⟩,
      List.mem_append_right _ (by simp), rfl⟩

theorem mem_store_series (series : List SeriesLink) :
    ∀ table row, row ∈ table → row ∈ store_series table series := by
  induction series with
  | nil => intro table row h; exact h
  | cons s ss ih =>
    intro table row h
    exact ih _ row (mem_insert_series table s row h)

theorem mem_store_skus (skus : List SkuLink) :
    ∀ table row, row ∈ table → row ∈ store_skus table skus := by
  induction skus with
  | nil => intro table row h; exact h
  | cons s ss ih =>
    intro table row h
    exact ih _ row (mem_insert_sku table s row h)

/-- After `store_series`, every stored link's url is present. -/
theorem store_series_covers (series : List SeriesLink) :
    ∀ table, ∀ s ∈ series, ∃ row ∈ store_series table series, row.url = s.url := by
  induction series with
  | nil => intro table s h; cases h
  | cons t ts ih =>
    intro table s hs
    rcases List.mem_cons.mp hs with rfl | hs
    · rcases insert_series_covers table s with ⟨row, hrow, hurl⟩
      exact ⟨row, mem_store_series ts _ row hrow, hurl⟩
    · exact ih _ s hs

/-- After `store_skus`, every stored link's sku is present. -/
theorem store_skus_covers (skus : List SkuLink) :
    ∀ table, ∀ s ∈ skus, ∃ row ∈ store_skus table skus, row.sku = s.sku := by
  induction skus with
  | nil => intro table s h; cases h
  | cons t ts ih =>
    intro table s hs
    rcases List.mem_cons.mp hs with rfl | hs
    · rcases insert_sku_covers table s with ⟨row, hrow, hsku⟩
      exact ⟨row, mem_store_skus ts _ row hrow, hsku⟩
    · exact ih _ s hs

/-- Storing series links whose keys are all present is a no-op. -/
theorem store_series_of_covered (series : List SeriesLink) :
    ∀ table, (∀ s ∈ series, ∃ row ∈ table, row.url = s.url) →
      store_series table series = table := by
  induction series with
  | nil => intro table _; rfl
  | cons s ss ih =>
    intro table h
    show store_series (insert_series table s) ss = table
    rw [insert_series_present table s (h s (by simp))]
    exact ih table (fun t ht => h t (by simp [ht]))

/-- Storing sku links whose keys are all present is a no-op. -/
theorem store_skus_of_covered (skus : List SkuLink) :
    ∀ table, (∀ s ∈ skus, ∃ row ∈ table, row.sku = s.sku) →
      store_skus table skus = table := by
  induction skus with
  | nil => intro table _; rfl
  | cons s ss ih =>
    intro table h
    show store_skus (insert_sku table s) ss = table
    rw [insert_sku_present table s (h s (by simp))]
    exact ih table (fun t ht => h t (by simp [ht]))

/-- **C3**: storing a series or item whose key is already present leaves the
existing row (hence the first-discovered category/family) unchanged, and
re-running the discovery storage with the same links yields exactly the same
stored series and item tables as running it once. -/
theorem claim_C3_insert_if_absent (tableS : List SeriesRow) (tableK : List SkuRow)
    (s : SeriesLink) (k : SkuLink) (series : List SeriesLink) (skus : List SkuLink)
    (hs : ∃ row ∈ tableS, row.url = s.url) (hk : ∃ row ∈ tableK, row.sku = k.sku) :
    insert_series tableS s = tableS ∧
    insert_sku tableK k = tableK ∧
    store_series (store_series tableS series) series = store_series tableS series ∧
    store_skus (store_skus tableK skus) skus = store_skus tableK skus := by
  refine ⟨insert_series_present tableS s hs, insert_sku_present tableK k hk, ?_, ?_⟩
  · apply store_series_of_covered
    intro t ht
    exact store_series_covers series tableS t ht
  · apply store_skus_of_covered
    intro t ht
    exact store_skus_covers skus tableK t ht

/-- Witness for C3: a duplicate series url and a duplicate sku id are ignored,
and storing the same discovery lists twice equals storing them once. -/
theorem claim_C3_insert_if_absent_witness :
    insert_series [⟨str "u1", str "c1", str "f1"⟩] ⟨str "c2", str "f2", str "u1"⟩ =
      [⟨str "u1", str "c1", str "f1"⟩] ∧
    insert_sku [⟨str "7", str "c1", str "f1", str "s1", none⟩]
        ⟨str "7", str "n2", str "c2", str "f2", str "s2"⟩ =
      [⟨str "7", str "c1", str "f1", str "s1", none⟩] ∧
    store_series (store_series [⟨str "u1", str "c1", str "f1"⟩]
        [⟨str "c1", str "f1", str "u1"⟩]) [⟨str "c1", str "f1", str "u1"⟩] =
      store_series [⟨str "u1", str "c1", str "f1"⟩] [⟨str "c1", str "f1", str "u1"⟩] ∧
    store_skus (store_skus [⟨str "7", str "c1", str "f1", str "s1", none⟩] []) [] =
      store_skus [⟨str "7", str "c1", str "f1", str "s1", none⟩] [] :=
  claim_C3_insert_if_absent
    [⟨str "u1", str "c1", str "f1"⟩] [⟨str "7", str "c1", str "f1", str "s1", none⟩]
    ⟨str "c2", str "f2", str "u1"⟩ ⟨str "7", str "n2", str "c2", str "f2", str "s2"⟩
    [⟨str "c1", str "f1", str "u1"⟩] []
    ⟨⟨str "u1", str "c1", str "f1"⟩, by simp, rfl⟩
    ⟨⟨str "7", str "c1", str "f1", str "s1", none⟩, by simp, rfl⟩

theorem foldl_append_eq_flatMap (f : SpecSection → List (Str × Str × Str)) :
    ∀ (l : List SpecSection) (init : List (Str × Str × Str)),
      l.foldl (fun acc sec => acc ++ f sec) init = init ++ l.flatMap f := by
  intro l
  induction l with
  | nil => intro init; simp
  | cons x xs ih =>
    intro init
    show xs.foldl _ (init ++ f x) = _
    rw [ih (init ++ f x)]
    simp

theorem foldl_guarded_append_eq_filterMap (g : Str) :
    ∀ (ps : List (Str × Str)) (init : List (Str × Str × Str)),
      ps.foldl
        (fun acc p =>
          if normalize_text p.1 = [] ∨ normalize_text p.2 = [] then acc
          else acc ++ [(g, normalize_text p.1, normalize_text p.2)])
        init =
      init ++ ps.filterMap
        (fun p =>
          if normalize_text p.1 = [] ∨ normalize_text p.2 = [] then none
          else some (g, normalize_text p.1, normalize_text p.2)) := by
  intro ps
  induction ps with
  | nil => intro init; simp
  | cons p ps ih =>
    intro init
    by_cases hp : normalize_text p.1 = [] ∨ normalize_text p.2 = []
    · show ps.foldl _ (if _ then init else _) = _
      rw [if_pos hp, ih init]
      simp only [List.filterMap_cons, if_pos hp]
    · show ps.foldl _ (if _ then init else _) = _
      rw [if_neg hp, ih _]
      simp only [List.filterMap_cons, if_neg hp, List.append_assoc, List.cons_append,
        List.nil_append]

/-- Closed form of `sectionRows`. -/
theorem sectionRows_eq (sec : SpecSection) :
    sectionRows sec =
      if normalize_text sec.heading = [] then []
      else
        sec.pairs.filterMap
          (fun p =>
            if normalize_text p.1 = [] ∨ normalize_text p.2 = [] then none
            else some (normalize_text sec.heading, normalize_text p.1, normalize_text p.2)) := by
  unfold sectionRows
  by_cases hg : normalize_text sec.heading = []
  · rw [if_pos hg, if_pos hg]
  · rw [if_neg hg, if_neg hg, foldl_guarded_append_eq_filterMap]
    simp

/-- **C6**: every (label, value) pair of a section with nonempty normalized
heading is emitted with label and value sent through `normalize_text`
(nbsp replaced, whitespace collapsed, ends trimmed — see the C10 theorem),
pairs whose normalized label or value is empty are discarded, every emitted
row arises from such a pair, and the `"Essentials"` example produces exactly
`(group="Essentials", field="Max Turbo Frequency", value="4.70 GHz")`. -/
theorem claim_C6_extraction_normalization (title : Option Str) (pageTitle : Str)
    (sections : List SpecSection) :
    (∀ sec ∈ sections, ∀ p ∈ sec.pairs,
      normalize_text sec.heading ≠ [] → normalize_text p.1 ≠ [] → normalize_text p.2 ≠ [] →
        (normalize_text sec.heading, normalize_text p.1, normalize_text p.2) ∈
          (scrape_spec_rows title pageTitle sections).2) ∧
    (∀ row ∈ (scrape_spec_rows title pageTitle sections).2,
      ∃ sec ∈ sections, ∃ p ∈ sec.pairs,
        normalize_text sec.heading ≠ [] ∧ normalize_text p.1 ≠ [] ∧
        normalize_text p.2 ≠ [] ∧
        row = (normalize_text sec.heading, normalize_text p.1, normalize_text p.2)) ∧
    (scrape_spec_rows none []
        [⟨str "Essentials", [(str " Max Turbo  Frequency ", str "4.70\u00A0GHz ")]⟩]).2 =
      [(str "Essentials", str "Max Turbo Frequency", str "4.70 GHz")] := by
  have hrows : (scrape_spec_rows title pageTitle sections).2 =
      sections.flatMap sectionRows := by
    show sections.foldl _ [] = _
    rw [foldl_append_eq_flatMap sectionRows sections []]
    rfl
  refine ⟨?_, ?_, by decide⟩
  · intro sec hsec p hp hg hl hv
    rw [hrows]
    apply List.mem_flatMap.mpr
    refine ⟨sec, hsec, ?_⟩
    rw [sectionRows_eq, if_neg hg]
    apply List.mem_filterMap.mpr
    refine ⟨p, hp, ?_⟩
    rw [if_neg (fun hor => hor.elim hl hv)]
  · intro row hrow
    rw [hrows] at hrow
    rcases List.mem_flatMap.mp hrow with ⟨sec, hsec, hr⟩
    rw [sectionRows_eq] at hr
    by_cases hg : normalize_text sec.heading = []
    · rw [if_pos hg] at hr
      cases hr
    · rw [if_neg hg] at hr
      rcases List.mem_filterMap.mp hr with ⟨p, hp, hif⟩
      by_cases hor : normalize_text p.1 = [] ∨ normalize_text p.2 = []
      · rw [if_pos hor] at hif
        cases hif
      · rw [if_neg hor] at hif
        refine ⟨sec, hsec, p, hp, hg, fun h1 => hor (Or.inl h1), fun h2 => hor (Or.inr h2), ?_⟩
        exact (Option.some.inj hif).symm

/-- Witness for C6: the membership conjunct applied to the `"Essentials"`
example page. -/
theorem claim_C6_extraction_normalization_witness :
    (str "Essentials", str "Max Turbo Frequency", str "4.70 GHz") ∈
      (scrape_spec_rows none []
        [⟨str "Essentials", [(str " Max Turbo  Frequency ", str "4.70\u00A0GHz ")]⟩]).2 := by
  have h := (claim_C6_extraction_normalization none []
    [⟨str "Essentials", [(str " Max Turbo  Frequency ", str "4.70\u00A0GHz ")]⟩]).1
    ⟨str "Essentials", [(str " Max Turbo  Frequency ", str "4.70\u00A0GHz ")]⟩ (by simp)
    (str " Max Turbo  Frequency ", str "4.70\u00A0GHz ") (by simp)
    (by decide) (by decide) (by decide)
  have heq : (normalize_text (str "Essentials"),
      normalize_text (str " Max Turbo  Frequency "),
      normalize_text (str "4.70\u00A0GHz ")) =
      (str "Essentials", str "Max Turbo Frequency", str "4.70 GHz") := by decide
  rwa [heq] at h

/-- **C10**: `normalize_text` is idempotent, and its output is always in
normal form: it contains no non-breaking space, no leading or trailing
whitespace, and no two consecutive whitespace characters. -/
theorem claim_C10_normalize_text_normal_form (s : Str) :
    normalize_text (normalize_text s) = normalize_text s ∧
    (∀ c ∈ normalize_text s, c ≠ nbspChar) ∧
    (∀ c, (normalize_text s).head? = some c → pyIsSpace c = false) ∧
    (∀ c, (normalize_text s).getLast? = some c → pyIsSpace c = false) ∧
    List.Chain' (fun a b => ¬(pyIsSpace a = true ∧ pyIsSpace b = true))
      (normalize_text s) := by
  refine ⟨normalize_text_idem s, normalize_text_no_nbsp s, ?_, ?_, ?_⟩
  · rw [normalize_text_eq_joinWords]
    exact joinWords_head_not_space _ (pySplit_words _)
  · rw [normalize_text_eq_joinWords]
    exact joinWords_getLast_not_space _ (pySplit_words _)
  · rw [normalize_text_eq_joinWords]
    exact joinWords_chain' _ (pySplit_words _)

/-- Witness for C10: idempotence at a concrete messy string. -/
theorem claim_C10_normalize_text_normal_form_witness :
    normalize_text (normalize_text (str " a\u00A0 b  c ")) =
      normalize_text (str " a\u00A0 b  c ") :=
  (claim_C10_normalize_text_normal_form (str " a\u00A0 b  c ")).1

theorem foldl_opt_append (f : SeriesPageRow → Option SkuLink) :
    ∀ (l : List SeriesPageRow) (init : List SkuLink),
      l.foldl (fun acc item => match f item with | none => acc | some x => acc ++ [x])
        init = init ++ l.filterMap f := by
  intro l
  induction l with
  | nil => intro init; simp
  | cons x xs ih =>
    intro init
    rw [List.foldl_cons]
    cases hf : f x with
    | none =>
      simp only [hf]
      rw [ih init]
      simp [List.filterMap_cons, hf]
    | some y =>
      simp only [hf]
      rw [ih (init ++ [y])]
      simp [List.filterMap_cons, hf]

/-- Closed form of the extraction loop. -/
theorem extract_skus_eq_filterMap (category family : Str)
    (items : List SeriesPageRow) :
    extract_skus_from_series_page category family items =
      items.filterMap (rowToSkuLink category family) := by
  unfold extract_skus_from_series_page
  rw [foldl_opt_append (rowToSkuLink category family) items []]
  rfl

/-- A malformed row is skipped by the per-row conversion. -/
theorem rowToSkuLink_none (category family : Str) (item : SeriesPageRow)
    (h : malformedRow item) : rowToSkuLink category family item = none := by
  unfold malformedRow at h
  unfold rowToSkuLink
  rcases h with h | h | h
  · rw [if_pos (Or.inl h)]
  · rw [if_pos (Or.inr h)]
  · by_cases h2 : pyStrip (item.sku.getD []) = [] ∨ item.href.getD [] = []
    · rw [if_pos h2]
    · rw [if_neg h2, if_pos h]

/-- An emitted link comes from a well-formed row and carries its fields. -/
theorem rowToSkuLink_some (category family : Str) (item : SeriesPageRow) (l : SkuLink)
    (h : rowToSkuLink category family item = some l) :
    ¬malformedRow item ∧
      l = ⟨pyStrip (item.sku.getD []), normalize_text (item.name.getD []),
           category, family, to_abs_url (item.href.getD [])⟩ := by
  unfold rowToSkuLink at h
  by_cases h1 : pyStrip (item.sku.getD []) = [] ∨ item.href.getD [] = []
  · rw [if_pos h1] at h
    cases h
  · rw [if_neg h1] at h
    by_cases h2 : containsSub (str "specifications.html") (item.href.getD []) = false
    · rw [if_pos h2] at h
      cases h
    · rw [if_neg h2] at h
      refine ⟨?_, (Option.some.inj h).symm⟩
      unfold malformedRow
      exact fun hm =>
        hm.elim (fun ha => h1 (Or.inl ha))
          (fun hbc => hbc.elim (fun hb => h1 (Or.inr hb)) h2)

/-- **C9**: a table row lacking a machine-readable identifier or a
specifications link is skipped without error — removing it from the page
changes nothing — the remaining rows are still processed, and every emitted
`SkuLink` comes from a well-formed row. -/
theorem claim_C9_malformed_row_tolerance (category family : Str)
    (pre post : List SeriesPageRow) (bad : SeriesPageRow) (hbad : malformedRow bad) :
    extract_skus_from_series_page category family (pre ++ bad :: post) =
      extract_skus_from_series_page category family (pre ++ post) ∧
    (∀ l ∈ extract_skus_from_series_page category family (pre ++ post),
      ∃ item ∈ pre ++ post, ¬malformedRow item ∧
        l = ⟨pyStrip (item.sku.getD []), normalize_text (item.name.getD []),
             category, family, to_abs_url (item.href.getD [])⟩) := by
  constructor
  · rw [extract_skus_eq_filterMap, extract_skus_eq_filterMap,
      List.filterMap_append, List.filterMap_append, List.filterMap_cons,
      rowToSkuLink_none category family bad hbad]
  · intro l hl
    rw [extract_skus_eq_filterMap] at hl
    rcases List.mem_filterMap.mp hl with ⟨item, hitem, hsome⟩
    rcases rowToSkuLink_some category family item l hsome with ⟨hwf, hleq⟩
    exact ⟨item, hitem, hwf, hleq⟩

/-- Witness for C9: a row without an anchor is dropped while its neighbours
are kept. -/
theorem claim_C9_malformed_row_tolerance_witness :
    extract_skus_from_series_page (str "c") (str "f")
      ([⟨some (str "11"), some (str "P1"),
          some (str "/products/sku/11/p1/specifications.html")⟩] ++
        ⟨some (str "12"), none, none⟩ ::
        [⟨some (str "13"), some (str "P3"),
          some (str "/products/sku/13/p3/specifications.html")⟩]) =
    extract_skus_from_series_page (str "c") (str "f")
      ([⟨some (str "11"), some (str "P1"),
          some (str "/products/sku/11/p1/specifications.html")⟩] ++
        [⟨some (str "13"), some (str "P3"),
          some (str "/products/sku/13/p3/specifications.html")⟩]) :=
  (claim_C9_malformed_row_tolerance (str "c") (str "f")
    [⟨some (str "11"), some (str "P1"),
      some (str "/products/sku/11/p1/specifications.html")⟩]
    [⟨some (str "13"), some (str "P3"),
      some (str "/products/sku/13/p3/specifications.html")⟩]
    ⟨some (str "12"), none, none⟩ (by decide)).1

theorem write_csv_foldl (sku product_name product_url category family scraped_at : Str) :
    ∀ (rows : List (Str × Str × Str)) (init : List (List Str)) (k : Nat),
      rows.foldl
        (fun (acc : List (List Str) × Nat) row =>
          (acc.1 ++ [csvLine sku product_name product_url category family row scraped_at],
           acc.2 + 1))
        (init, k) =
      (init ++ rows.map
          (fun row => csvLine sku product_name product_url category family row scraped_at),
       k + rows.length) := by
  intro rows
  induction rows with
  | nil => intro init k; simp
  | cons r rs ih =>
    intro init k
    rw [List.foldl_cons, ih (init ++ [csvLine sku product_name product_url category
      family r scraped_at]) (k + 1)]
    simp [List.append_assoc]
    omega

/-- Closed form of `write_csv_rows`. -/
theorem write_csv_rows_eq (file : Option (List (List Str)))
    (sku product_name product_url category family : Str)
    (spec_rows : List (Str × Str × Str)) (scraped_at : Str) :
    write_csv_rows file sku product_name product_url category family spec_rows
        scraped_at =
      (some ((file.getD []) ++ (if file.isNone then [headerLine] else []) ++
        spec_rows.map
          (fun row => csvLine sku product_name product_url category family row scraped_at)),
       spec_rows.length) := by
  simp only [write_csv_rows]
  rw [write_csv_foldl]
  cases file with
  | none => simp
  | some lines => simp

/-- **C7**: the sink writer appends: prior content is preserved
as a prefix, the header is written exactly when the log did not exist, one
line per spec row follows with the single shared timestamp as its last field,
and the returned count is the number of spec rows written. -/
theorem claim_C7_sink_writer (file : Option (List (List Str)))
    (sku product_name product_url category family : Str)
    (spec_rows : List (Str × Str × Str)) (scraped_at : Str) :
    (write_csv_rows file sku product_name product_url category family spec_rows
        scraped_at).2 = spec_rows.length ∧
    (write_csv_rows file sku product_name product_url category family spec_rows
        scraped_at).1 =
      some ((file.getD []) ++ (if file.isNone then [headerLine] else []) ++
        spec_rows.map
          (fun row => csvLine sku product_name product_url category family row
            scraped_at)) ∧
    (∃ tail, (write_csv_rows file sku product_name product_url category family
        spec_rows scraped_at).1 = some ((file.getD []) ++ tail)) ∧
    (∀ row ∈ spec_rows,
      (csvLine sku product_name product_url category family row scraped_at).getLast? =
        some scraped_at) := by
  refine ⟨by rw [write_csv_rows_eq], by rw [write_csv_rows_eq], ?_, fun row _ => rfl⟩
  refine ⟨(if file.isNone then [headerLine] else []) ++
    spec_rows.map
      (fun row => csvLine sku product_name product_url category family row scraped_at), ?_⟩
  rw [write_csv_rows_eq, List.append_assoc]

/-- Witness for C7: writing two rows into a fresh log. -/
theorem claim_C7_sink_writer_witness :
    (write_csv_rows none (str "1") (str "P") (str "u") (str "c") (str "f")
      [(str "g", str "n", str "v"), (str "g", str "n2", str "v2")] (str "t")).2 = 2 :=
  (claim_C7_sink_writer none (str "1") (str "P") (str "u") (str "c") (str "f")
    [(str "g", str "n", str "v"), (str "g", str "n2", str "v2")] (str "t")).1

/-- Both branches of the loop body write the item's outcome row. -/
theorem processOne_scraped (oracle : SkuRow → ScrapeResult) (times : Nat → Str)
    (st : LoopState) (idx : Nat) (r : SkuRow) :
    (processOne oracle times st idx r).scraped =
      match oracle r with
      | .ok _ _ => mark_sku st.scraped r.sku (str "ok") none (times idx)
      | .error e => mark_sku st.scraped r.sku (str "error") (some e) (times idx) := by
  cases h : oracle r with
  | ok n rows => simp [processOne, h]
  | error e => simp [processOne, h]

theorem processOne_rowsFor_ne (oracle : SkuRow → ScrapeResult) (times : Nat → Str)
    (st : LoopState) (idx : Nat) (r : SkuRow) (i : Str) (h : r.sku ≠ i) :
    rowsFor (processOne oracle times st idx r).scraped i = rowsFor st.scraped i := by
  rw [processOne_scraped]
  cases oracle r with
  | ok n rows => rw [rowsFor_mark, if_neg (fun hi => h hi.symm)]
  | error e => rw [rowsFor_mark, if_neg (fun hi => h hi.symm)]

/-- Later iterations over other items do not disturb an item's outcome rows. -/
theorem scrapeLoopAux_rowsFor_untouched (oracle : SkuRow → ScrapeResult)
    (times : Nat → Str) :
    ∀ (pending : List SkuRow) (idx : Nat) (st : LoopState) (i : Str),
      (∀ r ∈ pending, r.sku ≠ i) →
      rowsFor (scrapeLoopAux oracle times idx pending st).scraped i =
        rowsFor st.scraped i := by
  intro pending
  induction pending with
  | nil => intro idx st i _; rfl
  | cons r rest ih =>
    intro idx st i h
    show rowsFor (scrapeLoopAux oracle times (idx + 1) rest
      (processOne oracle times st idx r)).scraped i = _
    rw [ih (idx + 1) _ i (fun b hb => h b (by simp [hb]))]
    exact processOne_rowsFor_ne oracle times st idx r i (h r (by simp))

/-- Every pending item ends the loop with exactly the outcome row its own
processing produced. -/
theorem scrapeLoopAux_outcomes (oracle : SkuRow → ScrapeResult) (times : Nat → Str) :
    ∀ (pending : List SkuRow) (idx : Nat) (st : LoopState),
      pendingKeysNodup pending →
      ∀ r ∈ pending, ∃ n,
        rowsFor (scrapeLoopAux oracle times idx pending st).scraped r.sku =
          [match oracle r with
           | .ok _ _ => ⟨r.sku, times n, str "ok", none⟩
           | .error e => ⟨r.sku, times n, str "error", some e⟩] := by
  intro pending
  induction pending with
  | nil => intro idx st _ r hr; cases hr
  | cons a rest ih =>
    intro idx st hnodup r hr
    have hnodup2 := hnodup
    unfold pendingKeysNodup at hnodup2
    rw [List.map_cons, List.nodup_cons] at hnodup2
    rcases List.mem_cons.mp hr with rfl | hr
    · refine ⟨idx, ?_⟩
      have hrest : ∀ b ∈ rest, b.sku ≠ r.sku := by
        intro b hb heq
        exact hnodup2.1 (heq ▸ List.mem_map.mpr ⟨b, hb, rfl⟩)
      show rowsFor (scrapeLoopAux oracle times (idx + 1) rest
        (processOne oracle times st idx r)).scraped r.sku = _
      rw [scrapeLoopAux_rowsFor_untouched oracle times rest (idx + 1) _ r.sku hrest]
      rw [processOne_scraped]
      cases h : oracle r with
      | ok n rows => rw [rowsFor_mark, if_pos rfl]
      | error e => rw [rowsFor_mark, if_pos rfl]
    · exact ih (idx + 1) (processOne oracle times st idx a) hnodup2.2 r hr

/-- **C4**: every exception raised while processing one pending item is caught
at the item-processing boundary and recorded as an `error` outcome carrying
the exception's detail string, successes are recorded as `ok`, and the loop
still processes every other pending item — no single failure aborts the
batch. -/
theorem claim_C4_per_item_error_isolation (oracle : SkuRow → ScrapeResult)
    (times : Nat → Str) (pending : List SkuRow) (st : LoopState)
    (h : pendingKeysNodup pending) :
    ∀ r ∈ pending,
      (∀ e, oracle r = .error e → ∃ n,
        rowsFor (scrapeLoop oracle times pending st).scraped r.sku =
          [⟨r.sku, times n, str "error", some e⟩]) ∧
      (∀ name rows, oracle r = .ok name rows → ∃ n,
        rowsFor (scrapeLoop oracle times pending st).scraped r.sku =
          [⟨r.sku, times n, str "ok", none⟩]) := by
  intro r hr
  rcases scrapeLoopAux_outcomes oracle times pending 1 st h r hr with ⟨n, hn⟩
  constructor
  · intro e he
    refine ⟨n, ?_⟩
    rw [he] at hn
    exact hn
  · intro name rows hok
    refine ⟨n, ?_⟩
    rw [hok] at hn
    exact hn

/-- Witness for C4: in the example batch the failing item gets an `error`
outcome with the exception detail while the following item still gets `ok`. -/
theorem claim_C4_per_item_error_isolation_witness :
    (∃ n, rowsFor (scrapeLoop exOracle (fun _ => str "t") exPending
        ⟨[], none, []⟩).scraped (str "1") =
      [⟨str "1", (fun _ : Nat => str "t") n, str "error",
        some (str "Timeout 120000ms exceeded")⟩]) ∧
    (∃ n, rowsFor (scrapeLoop exOracle (fun _ => str "t") exPending
        ⟨[], none, []⟩).scraped (str "2") =
      [⟨str "2", (fun _ : Nat => str "t") n, str "ok", none⟩]) := by
  have h := claim_C4_per_item_error_isolation exOracle (fun _ => str "t") exPending
    ⟨[], none, []⟩ (by unfold pendingKeysNodup; decide)
  constructor
  · exact (h ⟨str "1", str "c", str "f", str "u1", none⟩ (by simp [exPending])).1
      (str "Timeout 120000ms exceeded") rfl
  · exact (h ⟨str "2", str "c", str "f", str "u2", some (str "Nice CPU")⟩
      (by simp [exPending])).2 (str "Nice CPU")
      [(str "Essentials", str "Cores", str "8")] rfl

/-- The in-loop save positions, for any starting index. -/
theorem scrapeLoopAux_saves (oracle : SkuRow → ScrapeResult) (times : Nat → Str) :
    ∀ (pending : List SkuRow) (idx : Nat) (st : LoopState),
      (scrapeLoopAux oracle times idx pending st).saves =
        st.saves ++ (pending.enumFrom idx).filterMap
          (fun p => match oracle p.2 with
            | .ok _ _ => if p.1 % 25 = 0 then some p.1 else none
            | .error _ => none) := by
  intro pending
  induction pending with
  | nil => intro idx st; simp [scrapeLoopAux]
  | cons r rest ih =>
    intro idx st
    show (scrapeLoopAux oracle times (idx + 1) rest
      (processOne oracle times st idx r)).saves = _
    rw [ih (idx + 1) _]
    rw [List.enumFrom_cons, List.filterMap_cons]
    cases h : oracle r with
    | ok n rows =>
      by_cases hm : idx % 25 = 0
      · simp [processOne, h, hm]
      · simp [processOne, h, hm]
    | error e =>
      simp [processOne, h]

/-- **C8 is false as stated**: in `cexPending` 25 items are successfully
processed, yet the loop performs no periodic save at all, because the code
keys the save on the 1-based batch position (`idx % 25 == 0`), and the item
at position 25 is the one that failed. -/
theorem claim_C8_counterexample : ¬claimC8Statement := by
  intro h
  have h2 := h cexOracle (fun _ => str "t") cexPending [] none
  have h3 : successCount cexOracle cexPending = 25 := by decide
  have h4 : (scrapeLoop cexOracle (fun _ => str "t") cexPending
      ⟨[], none, []⟩).saves.length = 0 := by decide
  rw [h3, h4] at h2
  exact absurd h2 (by decide)

/-- **C8 amended**: during the scrape loop the storage state is saved exactly
at the items whose 1-based batch position is a multiple of 25 and whose
processing succeeded, and once more, unconditionally, at run end. -/
theorem claim_C8_amended_storage_saves (oracle : SkuRow → ScrapeResult)
    (times : Nat → Str) (pending : List SkuRow) (scraped0 : List OutcomeRow)
    (csv0 : Option (List (List Str))) :
    (scrapeLoop oracle times pending ⟨scraped0, csv0, []⟩).saves =
      periodicSaveIdxs oracle pending ∧
    (scrapePhase oracle times pending ⟨scraped0, csv0, []⟩).2 =
      (periodicSaveIdxs oracle pending).length + 1 := by
  have h := scrapeLoopAux_saves oracle times pending 1 ⟨scraped0, csv0, []⟩
  constructor
  · unfold scrapeLoop periodicSaveIdxs
    rw [h]
    rfl
  · show (scrapeLoop oracle times pending ⟨scraped0, csv0, []⟩).saves.length + 1 = _
    unfold scrapeLoop periodicSaveIdxs
    rw [h]
    rfl

/-- **C5 is false as stated**: with two categories where only the first page
fails, the walker never reaches the second category — its series is not
stored — because the discovery `try` block has no `except` (only `finally`)
and the exception aborts the whole phase. -/
theorem claim_C5_counterexample : ¬claimC5Statement := by
  intro h
  have h2 := h cexCatOracle [str "cat1", str "cat2"] [] (str "cat2")
    [⟨str "cat2", str "fam2", str "u2"⟩] ⟨str "cat2", str "fam2", str "u2"⟩
    (by simp) rfl (by simp)
  have h3 : (discoverSeriesLoop cexCatOracle [str "cat1", str "cat2"] []).1 = [] := rfl
  rw [h3] at h2
  rcases h2 with ⟨row, hrow, _⟩
  cases hrow

/-- A category-page failure ends the category loop with the exception, and the
stored table is exactly that of the run over the preceding categories alone. -/
theorem discoverSeriesLoop_abort (catOracle : Str → Except Str (List SeriesLink))
    (c : Str) (e : Str) (hfail : catOracle c = .error e) :
    ∀ (cats1 cats2 : List Str) (tableS : List SeriesRow),
      (∀ c2 ∈ cats1, ∃ series, catOracle c2 = .ok series) →
      discoverSeriesLoop catOracle (cats1 ++ c :: cats2) tableS =
        ((discoverSeriesLoop catOracle cats1 tableS).1, some e) := by
  intro cats1
  induction cats1 with
  | nil =>
    intro cats2 tableS _
    show discoverSeriesLoop catOracle (c :: cats2) tableS = _
    unfold discoverSeriesLoop
    rw [hfail]
  | cons c2 cs ih =>
    intro cats2 tableS hok
    rcases hok c2 (by simp) with ⟨series, hs⟩
    show discoverSeriesLoop catOracle (c2 :: (cs ++ c :: cats2)) tableS = _
    conv_lhs => unfold discoverSeriesLoop
    conv_rhs => unfold discoverSeriesLoop
    rw [hs]
    exact ih cats2 (store_series tableS series) (fun x hx => hok x (by simp [hx]))

/-- A series-page failure ends the sku-extraction loop with the exception, and
the stored table is exactly that of the run over the preceding series alone. -/
theorem extractSkusLoop_abort (skuOracle : SeriesLink → Except Str (List SkuLink))
    (sfail : SeriesLink) (e2 : Str) (hfail : skuOracle sfail = .error e2) :
    ∀ (ss1 ss2 : List SeriesLink) (tableK : List SkuRow),
      (∀ s2 ∈ ss1, ∃ skus, skuOracle s2 = .ok skus) →
      extractSkusLoop skuOracle (ss1 ++ sfail :: ss2) tableK =
        ((extractSkusLoop skuOracle ss1 tableK).1, some e2) := by
  intro ss1
  induction ss1 with
  | nil =>
    intro ss2 tableK _
    show extractSkusLoop skuOracle (sfail :: ss2) tableK = _
    unfold extractSkusLoop
    rw [hfail]
  | cons s2 ss ih =>
    intro ss2 tableK hok
    rcases hok s2 (by simp) with ⟨skus, hs⟩
    show extractSkusLoop skuOracle (s2 :: (ss ++ sfail :: ss2)) tableK = _
    conv_lhs => unfold extractSkusLoop
    conv_rhs => unfold extractSkusLoop
    rw [hs]
    exact ih ss2 (store_skus tableK skus) (fun x hx => hok x (by simp [hx]))

/-- **C5 amended**: when a discovery page (category enumeration or a series
listing) still fails after retry exhaustion, the exception propagates and
aborts the discovery phase: the loop keeps only the rows committed before the
failing page, reports the exception, and never visits the remaining
categories (resp. series). -/
theorem claim_C5_amended_discovery_abort
    (catOracle : Str → Except Str (List SeriesLink))
    (skuOracle : SeriesLink → Except Str (List SkuLink))
    (cats1 cats2 : List Str) (c : Str) (e : Str) (tableS : List SeriesRow)
    (ss1 ss2 : List SeriesLink) (sfail : SeriesLink) (e2 : Str)
    (tableK : List SkuRow)
    (hok : ∀ c2 ∈ cats1, ∃ series, catOracle c2 = .ok series)
    (hfail : catOracle c = .error e)
    (hok2 : ∀ s2 ∈ ss1, ∃ skus, skuOracle s2 = .ok skus)
    (hfail2 : skuOracle sfail = .error e2) :
    discoverSeriesLoop catOracle (cats1 ++ c :: cats2) tableS =
      ((discoverSeriesLoop catOracle cats1 tableS).1, some e) ∧
    extractSkusLoop skuOracle (ss1 ++ sfail :: ss2) tableK =
      ((extractSkusLoop skuOracle ss1 tableK).1, some e2) :=
  ⟨discoverSeriesLoop_abort catOracle c e hfail cats1 cats2 tableS hok,
   extractSkusLoop_abort skuOracle sfail e2 hfail2 ss1 ss2 tableK hok2⟩

/-- Witness for the amended C5: the two-category counterexample run through
the theorem — the failing first page aborts the phase with the table still
empty. -/
theorem claim_C5_amended_discovery_abort_witness :
    discoverSeriesLoop cexCatOracle ([] ++ str "cat1" :: [str "cat2"]) [] =
      ((discoverSeriesLoop cexCatOracle [] []).1, some (str "net down")) ∧
    extractSkusLoop (fun _ => .error (str "boom"))
        ([] ++ (⟨str "c", str "f", str "u"⟩ : SeriesLink) :: []) [] =
      ((extractSkusLoop (fun _ => .error (str "boom")) [] []).1,
        some (str "boom")) :=
  claim_C5_amended_discovery_abort cexCatOracle (fun _ => .error (str "boom"))
    [] [str "cat2"] (str "cat1") (str "net down") []
    [] [] ⟨str "c", str "f", str "u"⟩ (str "boom") []
    (fun _ hx => absurd hx (List.not_mem_nil _)) rfl
    (fun _ hx => absurd hx (List.not_mem_nil _)) rfl

end IntelArk
